import Mathlib

/-!
Verification of the tsel tabular viewer (src/tsel/__init__.py) against its
natural-language specification.  Python strings are embedded as lists of
characters; Python exceptions (IndexError, KeyError, ZeroDivisionError,
ValueError, NotImplementedError) are embedded as `Option`/`Except` failures.
All definitions are straight translations of the corresponding Python code.
-/

namespace Tsel

/-- A Python string, embedded as its list of characters. -/
abbrev Str := List Char

/-- A parsed row: one trimmed cell per schema column. -/
abbrev Row := List Str

/-- A schema column value: (index, start, stop), as in `self.columns[name]`. -/
abbrev Col := Nat × Nat × Nat

/-- The schema: the insertion-ordered dict `self.columns`. -/
abbrev Schema := List (Str × Col)

/-- A `wheres` entry `(col, cmp, val)`; `col = none` is a free-text
substring predicate (Python stores `(None, None, pattern)`; the unused
comparator slot is embedded as the empty string). -/
abbrev Where := Option Str × Str × Str

/-- Traverse a list with a fallible function (`Option`-valued `mapM`). -/
def mapOpt (f : α → Option β) : List α → Option (List β)
  | [] => some []
  | a :: as =>
    match f a, mapOpt f as with
    | some b, some bs => some (b :: bs)
    | _, _ => none

/-- Whitespace as stripped by Python `str.strip()` (the characters that
occur in this program's data). -/
def isPySpace (c : Char) : Bool :=
  c == ' ' || c == '\t' || c == '\n' || c == '\r'

/-- Python `s.strip()`. -/
def pyStrip (s : Str) : Str :=
  ((s.dropWhile isPySpace).reverse.dropWhile isPySpace).reverse

/-- Python `s[a:b]` for `0 ≤ a ≤ b` (character slicing; slicing past the
end yields the available characters, never an error). -/
def pySlice (s : Str) (a b : Nat) : Str :=
  (s.drop a).take (b - a)

/-- Helper for `pyFind`: try positions `i, i+1, ...` while fuel lasts. -/
def pyFindGo (hay sub : Str) : Nat → Nat → Option Nat
  | 0, _ => none
  | fuel + 1, i =>
    if sub.isPrefixOf (hay.drop i) then some i else pyFindGo hay sub fuel (i + 1)

/-- Python `hay.find(sub, start)` / `hay.index(sub, start)`: index of the
first occurrence of `sub` in `hay` at or after `start` (`none` embeds the
`ValueError` of `str.index`). -/
def pyFind (hay sub : Str) (start : Nat) : Option Nat :=
  pyFindGo hay sub (hay.length + 1 - start) start

/-- Python `sub in hay`. -/
def pyContains (hay sub : Str) : Bool :=
  (pyFind hay sub 0).isSome

/-- Helper for `pySplitSep`: repeatedly cut at the next occurrence of the
(nonempty) separator. -/
def pySplitSepGo (sep : Str) : Nat → Str → List Str
  | 0, s => [s]
  | fuel + 1, s =>
    match pyFind s sep 0 with
    | none => [s]
    | some i => pySlice s 0 i :: pySplitSepGo sep fuel (s.drop (i + sep.length))

/-- Python `s.split(sep)`; `none` embeds the `ValueError` raised for an
empty separator. -/
def pySplitSep (s sep : Str) : Option (List Str) :=
  if sep.isEmpty then none else some (pySplitSepGo sep (s.length + 1) s)

/-- Helper for `splitMultiSpace`: the compiled regex `'  +'` cuts the
string at each run of two or more spaces. -/
def smsGo : Nat → Str → Str → List Str
  | 0, s, cur => [cur.reverse ++ s]
  | fuel + 1, s, cur =>
    match s with
    | [] => [cur.reverse]
    | ' ' :: ' ' :: rest =>
      cur.reverse :: smsGo fuel (rest.dropWhile (fun c => c == ' ')) []
    | c :: rest => smsGo fuel rest (c :: cur)

/-- `multiple_spaces.split(s)` where `multiple_spaces = re.compile('  +')`. -/
def splitMultiSpace (s : Str) : List Str :=
  smsGo (s.length + 1) s []

/-- Python `len(names) != len(set(names))`. -/
def hasDup (l : List Str) : Bool :=
  !(l.dedup.length == l.length)

/-- Lookup in the `self.columns` dict (column names are unique). `none`
embeds a `KeyError`. -/
def colLookup (cols : Schema) (name : Str) : Option Col :=
  match cols.find? (fun e => e.1 == name) with
  | some e => some e.2
  | none => none

/-! ### Natural comparator (`Tsel.compare`, lines 188-203)

`numeric = re.compile('([0-9]+)')`; `numeric.split(s)` yields an
alternating sequence of (possibly empty) non-digit runs and nonempty
digit runs, starting and ending with a non-digit run.  Elements that are
all digits are converted to `int`; the two lists are then compared with
Python list comparison.  A comparison between an `int` and a `str`
(which would raise `TypeError`) is embedded as `none`. -/

/-- State machine for `re.split('([0-9]+)', s)`: `inDigits` says whether
the accumulator holds a digit run. -/
def splitGo : List Char → Bool → List Char → List Str
  | [], false, acc => [acc.reverse]
  | [], true, acc => [acc.reverse, []]
  | c :: rest, false, acc =>
    if c.isDigit then acc.reverse :: splitGo rest true [c]
    else splitGo rest false (c :: acc)
  | c :: rest, true, acc =>
    if c.isDigit then splitGo rest true (c :: acc)
    else acc.reverse :: splitGo rest false [c]

/-- `numeric.split(s)` for `numeric = re.compile('([0-9]+)')`. -/
def numSplit (s : Str) : List Str :=
  splitGo s false []

/-- The decimal value of a character as accepted by Python `int()`
(Unicode category Nd).  The full Unicode tables are not reproduced:
the model covers the ASCII digits exactly and, of the non-ASCII
decimal digits, the Arabic-Indic digits U+0660-U+0669; every other
character is rejected.  (`Char.isDigit` is exactly the ASCII `[0-9]`
test, the same class the `numeric` regex matches.) -/
def charDecimalVal (c : Char) : Option Nat :=
  if c.isDigit then some (c.toNat - 48)
  else if 1632 ≤ c.toNat && c.toNat ≤ 1641 then some (c.toNat - 1632)
  else none

/-- Python `str.isdigit()` for one character: true on every decimal
digit and on every Numeric_Type=Digit character.  Of the latter the
model carries the superscripts ² (U+00B2), ³ (U+00B3) and ¹ (U+00B9) —
characters `isdigit()` accepts but `int()` rejects; all other
characters outside the decimal table are treated as non-digits. -/
def charIsDigitPy (c : Char) : Bool :=
  (charDecimalVal c).isSome || c.toNat == 178 || c.toNat == 179 || c.toNat == 185

/-- Python `v.isdigit()`. -/
def pyIsDigit (s : Str) : Bool :=
  !s.isEmpty && s.all charIsDigitPy

/-- Python `int(v)` for the tokens this program feeds it (no signs or
blanks); `none` embeds the `ValueError` raised on the empty string or
on a digit character without a decimal value, e.g. `int("²")`. -/
def pyInt (s : Str) : Option Nat :=
  match mapOpt charDecimalVal s with
  | some ds => if s.isEmpty then none else some (ds.foldl (fun n d => 10 * n + d) 0)
  | none => none

/-- A token of the numeric-split list after `int` conversion. -/
inductive Tok where
  | strT : Str → Tok
  | numT : Nat → Tok
deriving DecidableEq

/-- The `if v.isdigit(): a[i] = int(v)` conversion applied to one
token; `none` embeds the `ValueError` of `int` on an
isdigit-but-not-decimal token such as "²". -/
def toTok (s : Str) : Option Tok :=
  if pyIsDigit s then (pyInt s).map Tok.numT else some (Tok.strT s)

/-- Python string comparison (lexicographic by code point). -/
def strOrd : Str → Str → Ordering
  | [], [] => Ordering.eq
  | [], _ :: _ => Ordering.lt
  | _ :: _, [] => Ordering.gt
  | a :: as, b :: bs =>
    if a < b then Ordering.lt
    else if b < a then Ordering.gt
    else strOrd as bs

/-- Python integer comparison. -/
def natOrd (a b : Nat) : Ordering :=
  if a < b then Ordering.lt else if b < a then Ordering.gt else Ordering.eq

/-- Comparison of two list elements; `none` embeds the `TypeError` of an
`int` vs `str` comparison. -/
def tokCmp : Tok → Tok → Option Ordering
  | Tok.strT a, Tok.strT b => some (strOrd a b)
  | Tok.numT a, Tok.numT b => some (natOrd a b)
  | _, _ => none

/-- Python list comparison (`a1 < a2` / `a1 > a2`): lexicographic, a
strict common prefix makes the shorter list smaller. -/
def lexTok : List Tok → List Tok → Option Ordering
  | [], [] => some Ordering.eq
  | [], _ :: _ => some Ordering.lt
  | _ :: _, [] => some Ordering.gt
  | a :: as, b :: bs =>
    match tokCmp a b with
    | none => none
    | some Ordering.eq => lexTok as bs
    | some Ordering.lt => some Ordering.lt
    | some Ordering.gt => some Ordering.gt

/-- `Tsel.compare(s1, s2)` (lines 188-203): both token lists are
converted first (a `ValueError` there aborts), then compared (a mixed
`int`-vs-`str` position raises `TypeError`); returns -1, 0 or 1. -/
def compare (s1 s2 : Str) : Option Int :=
  match mapOpt toTok (numSplit s1), mapOpt toTok (numSplit s2) with
  | some a1, some a2 =>
    match lexTok a1 a2 with
    | none => none
    | some Ordering.lt => some (-1)
    | some Ordering.gt => some 1
    | some Ordering.eq => some 0
  | _, _ => none

/-- Strings whose characters' `isdigit()` status agrees with the
tokenizer's ASCII `[0-9]` class — in particular all ASCII strings.
Such strings exercise no Unicode-digit corner of `compare`. -/
def digitConsistent (s : Str) : Bool :=
  s.all (fun c => charIsDigitPy c == c.isDigit)

/-! ### Filter engine (`Tsel.filter`, lines 206-234) -/

/-- One conjunct of the per-row filter: the body of the
`for where in self.wheres` loop.  `lines` is `self.lines`. -/
def matchesWhere (cols : Schema) (lines : List Str) (i : Nat) (row : Row)
    (w : Where) : Option Bool :=
  match w with
  | (none, _, val) =>
    match lines.get? i with
    | some line => some (pyContains line val)
    | none => none
  | (some col, cmp, val) =>
    match colLookup cols col with
    | none => none
    | some v =>
      match row.get? v.1 with
      | none => none
      | some cell =>
        if cmp == ('=' :: []) || cmp == ('=' :: '=' :: []) then
          some (cell == val)
        else if cmp == ('!' :: '=' :: []) || cmp == ('<' :: '>' :: []) then
          some (cell != val)
        else if cmp == ('<' :: []) then
          (compare cell val).map (fun r => decide (r < 0))
        else if cmp == ('<' :: '=' :: []) then
          (compare cell val).map (fun r => decide (r ≤ 0))
        else if cmp == ('>' :: []) then
          (compare cell val).map (fun r => decide (r > 0))
        else if cmp == ('>' :: '=' :: []) then
          (compare cell val).map (fun r => decide (r ≥ 0))
        else some true

/-- The `matches` accumulator over the predicate list (`matches &= ...`;
every predicate is evaluated, there is no short circuit). -/
def rowMatches (cols : Schema) (lines : List Str) (i : Nat) (row : Row) :
    List Where → Option Bool
  | [] => some true
  | w :: ws =>
    match matchesWhere cols lines i row w, rowMatches cols lines i row ws with
    | some b, some rest => some (b && rest)
    | _, _ => none

/-- The `for i, row in enumerate(self.rows)` loop of `Tsel.filter`. -/
def filterAux (cols : Schema) (lines : List Str) (wheres : List Where) :
    Nat → List Row → Option (List Row)
  | _, [] => some []
  | i, r :: rs =>
    match rowMatches cols lines i r wheres, filterAux cols lines wheres (i + 1) rs with
    | some b, some rest => some (if b then r :: rest else rest)
    | _, _ => none

/-- `Tsel.filter` (lines 206-234): recompute `self.filtered_rows`. -/
def filter (cols : Schema) (lines : List Str) (wheres : List Where)
    (rows : List Row) : Option (List Row) :=
  filterAux cols lines wheres 0 rows

/-! ### Table parser (`Tsel.load_infile` / `load_tabular` / `load_csv`) -/

/-- The span-walking `while` loop of `load_tabular` (lines 158-168):
each column's stop is the index of the next header token, searched from
`start + len(c)`; the last column's stop is provisionally the header
length. -/
def spanWalk (hl : Str) : List Str → Nat → Nat → Option Schema
  | [], _, _ => some []
  | c :: rest, idx, start =>
    match rest with
    | [] => some [(c, (idx, start, hl.length))]
    | c2 :: _ =>
      match pyFind hl c2 (start + c.length) with
      | none => none
      | some stop =>
        match spanWalk hl rest (idx + 1) stop with
        | none => none
        | some tail => some ((c, (idx, start, stop)) :: tail)

/-- Replace the stop offset of the last schema entry (the
`columns[c] = (columns[c][0], columns[c][1], max_length + 2)` fix-up). -/
def fixLast : Schema → Nat → Schema
  | [], _ => []
  | [(c, (i, s, _))], stop => [(c, (i, s, stop))]
  | x :: rest, stop => x :: fixLast rest stop

/-- `Tsel.load_tabular` (lines 153-185).  `hl` is `self.headerline`,
`lines` is `self.lines` (the body lines). -/
def load_tabular (hl : Str) (lines : List Str) (names : List Str) :
    Option (Schema × List Row) :=
  match names with
  | [] => none
  | _ =>
    match spanWalk hl names 0 0 with
    | none => none
    | some cols0 =>
      let maxLen := lines.foldl (fun m l => max m l.length) hl.length
      let cols := fixLast cols0 (maxLen + 2)
      let rows := lines.map (fun l => cols.map (fun e => pyStrip (pySlice l e.2.2.1 e.2.2.2)))
      some (cols, rows)

/-- One line as seen by `csv.reader` for this program's plain
(unquoted, comma-separated) inputs; a blank line yields `[]` and is
skipped by `DictReader`. -/
def csvLine (l : Str) : List Str :=
  if l.isEmpty then [] else pySplitSepGo (',' :: []) (l.length + 1) l

/-- Insert-or-overwrite into an insertion-ordered dict, as Python
`d[k] = v`. -/
def upsert (d : List (Str × Str)) (k v : Str) : List (Str × Str) :=
  match d with
  | [] => [(k, v)]
  | (k', v') :: rest =>
    if k' == k then (k, v) :: rest else (k', v') :: upsert rest k v

/-- `dict(zip(fieldnames, row))` as built by `csv.DictReader`: duplicate
fieldnames collapse, the later value winning. -/
def buildDict (ks vs : List Str) : List (Str × Str) :=
  (ks.zip vs).foldl (fun d kv => upsert d kv.1 kv.2) []

/-- `max`-update of the per-column width list (the
`if len(value) + 2 > widths[index]` loop). -/
def updWidths (ws : List Nat) (vals : List Str) : List Nat :=
  ws.zipWith (fun w v => max w (v.length + 2)) vals

/-- `Tsel.load_csv` (lines 123-150), for the plain comma-separated
inputs this program is fed (`csv` quoting is not exercised; a data row
whose field count differs from the header is outside the modelled
fragment and embeds to `none`). -/
def load_csv (lines : List Str) : Option (Schema × List Row) :=
  match lines with
  | [] => some ([], [])
  | header :: body =>
    let fns := csvLine header
    let dataRows := (body.map csvLine).filter (fun r => !r.isEmpty)
    match dataRows with
    | [] => some ([], [])
    | r1 :: _ =>
      if dataRows.all (fun r => r.length == fns.length) then
        let rowVals := dataRows.map (fun r => (buildDict fns r).map (fun e => e.2))
        let keys := (buildDict fns r1).map (fun e => e.1)
        let widths0 := keys.map (fun k => k.length + 2)
        let widths := rowVals.foldl updWidths widths0
        let cols := (keys.enum).map (fun p => (p.2, (p.1, 0, widths.getD p.1 0)))
        some (cols, rowVals)
      else none

/-- `Tsel.load_infile` (lines 87-120) after the file has been read into
`lines`.  Returns the schema, the parsed rows, and the stored
`self.lines` (the body lines in fixed-width mode, `[]` in CSV mode —
`load_csv` never assigns `self.lines`).  Errors carry the Python
exception name.  Note the code's `",".split(headerline)` (the receiver
and argument are swapped: the one-character string `","` is split on the
whole header line). -/
def load_infile (lines : List Str) : Except Str (Schema × List Row × List Str) :=
  match lines with
  | [] => Except.error ("IndexError").data
  | headerline :: rest =>
    let tokens1 := splitMultiSpace headerline
    if tokens1.length > 1 then
      if hasDup tokens1 then Except.error ("NotImplementedError").data
      else
        match load_tabular headerline rest tokens1 with
        | some (cols, rows) => Except.ok (cols, rows, rest)
        | none => Except.error ("ValueError").data
    else
      match pySplitSep ((',' :: [])) headerline with
      | none => Except.error ("ValueError").data
      | some tokens2 =>
        if hasDup tokens2 then Except.error ("NotImplementedError").data
        else
          match load_csv (headerline :: rest) with
          | some (cols, rows) => Except.ok (cols, rows, [])
          | none => Except.error ("CsvUnmodelled").data

/-! ### Distinct values (`Tsel.distinct_values`, lines 577-582)

`values = list(set(...)); values.sort()` — `list.sort()` uses Python's
default string order (lexicographic by code point), so the result is the
deduplicated column values sorted by that order. -/

/-- Python `a < b` on strings, as a Boolean. -/
def strLtB : Str → Str → Bool
  | [], [] => false
  | [], _ :: _ => true
  | _ :: _, [] => false
  | a :: as, b :: bs =>
    if a < b then true else if b < a then false else strLtB as bs

/-- Python `a <= b` on strings. -/
def strLeB (a b : Str) : Bool :=
  !strLtB b a

/-- The ascending order produced by `list.sort()` on strings. -/
def strLe (a b : Str) : Prop :=
  strLeB a b = true

instance : DecidableRel strLe := fun a b => by
  unfold strLe; infer_instance

/-- `Tsel.distinct_values` (lines 577-582). -/
def distinct_values (cols : Schema) (rows : List Row) (col : Str) :
    Option (List Str) :=
  match colLookup cols col with
  | none => none
  | some v =>
    match mapOpt (fun r => r.get? v.1) rows with
    | none => none
    | some vals => some (List.insertionSort strLe vals.dedup)

/-! ### Viewport renderer (`Tsel.table`, lines 585-640) -/

/-- Python `f'{s: <{w}}'`: left-justify in `w` characters (never
truncates). -/
def padTo (s : Str) (w : Nat) : Str :=
  s ++ List.replicate (w - s.length) ' '

/-- The header loop of `Tsel.table` (lines 594-606): every selected
column is written padded to its span width, with no budget check. -/
def headerLine (cols : Schema) (sel : List Str) : Option Str :=
  match sel with
  | [] => some []
  | c :: cs =>
    match colLookup cols c, headerLine cols cs with
    | some v, some rest => some (padTo c (v.2.2 - v.2.1) ++ rest)
    | _, _ => none

/-- The per-row column loop of `Tsel.table` (lines 634-640): a column is
written only if `ci + width < cmax`; a column that fails the test is
skipped (without stopping the loop) and does not advance `ci`. -/
def rowLineGo (cols : Schema) (row : Row) (cmax : Nat) :
    List Str → Nat → Option Str
  | [], _ => some []
  | c :: cs, ci =>
    match colLookup cols c with
    | none => none
    | some v =>
      if ci + (v.2.2 - v.2.1) < cmax then
        match row.get? v.1, rowLineGo cols row cmax cs (ci + (v.2.2 - v.2.1)) with
        | some cell, some rest => some (padTo cell (v.2.2 - v.2.1) ++ rest)
        | _, _ => none
      else rowLineGo cols row cmax cs ci

/-- One data line, starting the width accumulator at `cmin`. -/
def rowLine (cols : Schema) (row : Row) (cmin cmax : Nat) (sel : List Str) :
    Option Str :=
  rowLineGo cols row cmax sel cmin

/-- `Tsel.table` (lines 585-640): the emitted lines — one header line,
then the filtered rows with index in `[max(0,rmin), rmax)` clamped to
`1 + len(filtered_rows)`. -/
def table (cols : Schema) (sel : List Str) (filtered : List Row)
    (rmin rmax : Int) (cmin cmax : Nat) : Option (List Str) :=
  match headerLine cols sel with
  | none => none
  | some hd =>
    let n : Int := filtered.length
    let rlo := min (max 0 rmin) (n + 1)
    let rhi := min rmax (n + 1)
    let picked := ((filtered.enum.filter
      (fun p => decide (rlo ≤ (p.1 : Int)) && decide ((p.1 : Int) < rhi))).map
      (fun p => p.2))
    match mapOpt (fun r => rowLine cols r cmin cmax sel) picked with
    | none => none
    | some body => some (hd :: body)

/-! ### Interactive controller fragments -/

/-- The scrolling keys of `Tsel.interactive` (lines 324-350). -/
inductive MoveKey where
  | kj | kd | kf | kk | ku | kb | kg | kG
deriving DecidableEq

/-- The `ri` update performed by `Tsel.interactive` for each scrolling
key (lines 324-350); `n = len(self.filtered_rows)`, `maxr` is the
terminal height.  Python `//` is floor division (`Int.fdiv`). -/
def scrollStep (ri : Int) (n : Nat) (maxr : Int) : MoveKey → Int
  | MoveKey.kj => min (ri + 1) n
  | MoveKey.kd => min (ri + Int.fdiv (maxr - 3) 2) n
  | MoveKey.kf => min (ri + (maxr - 3)) n
  | MoveKey.kk => max 0 (ri - 1)
  | MoveKey.ku => max 0 (ri - Int.fdiv (maxr - 3) 2)
  | MoveKey.kb => max 0 (ri - (maxr - 3))
  | MoveKey.kg => 0
  | MoveKey.kG => (n : Int) - maxr + 3

/-- Python `a % n` for `n : Nat`; `none` embeds the `ZeroDivisionError`
raised when `n = 0`.  For positive `n`, Python `%` agrees with
`Int.emod`. -/
def pyMod (a : Int) (n : Nat) : Option Int :=
  if n = 0 then none else some (Int.emod a n)

/-- Cursor keys handled by `Tsel.where_prompt`. -/
inductive CursorKey where
  | down | up | other
deriving DecidableEq

/-- One pass of the cursor handling in `Tsel.where_prompt` (lines
476-490): move `selected_col`/`selected_val` by the key, then apply the
unconditional `%=` normalisation (`ncols = len(self.columns)`,
`nvals = len(distinct_values)`). -/
def wherePromptCursor (x : Nat) (sc sv : Int) (ncols nvals : Nat)
    (k : CursorKey) : Option (Int × Int) :=
  let moved :=
    match k with
    | CursorKey.down => if x == 0 then (sc + 1, sv) else (sc, sv + 1)
    | CursorKey.up => if x == 0 then (sc - 1, sv) else (sc, sv - 1)
    | CursorKey.other => (sc, sv)
  if x == 0 then
    (pyMod moved.1 ncols).map (fun m => (m, moved.2))
  else
    (pyMod moved.2 nvals).map (fun m => (moved.1, m))

/-- The Enter handler of `Tsel.where_prompt` in value-choosing mode
(lines 499-505): `self.wheres = [(col, cmp, val)]; self.filter()`.  The
previous `wheres` list is passed in only to show it is discarded. -/
def wherePromptEnter (cols : Schema) (lines : List Str) (rows : List Row)
    (all_columns : List Str) (sc : Nat) (cmp : Str) (dvs : List Str) (sv : Nat)
    (_wheres : List Where) : Option (List Where × List Row) :=
  match all_columns.get? sc, dvs.get? sv with
  | some col, some val =>
    match filter cols lines [(some col, cmp, val)] rows with
    | some fr => some ([(some col, cmp, val)], fr)
    | none => none
  | _, _ => none

/-! ### The fixed-width scenario of the spec -/

/-- The raw lines of the spec's fixed-width scenario. -/
def c1lines : List Str :=
  [("NAME  AGE  STATUS").data, ("Alice 30   Pending").data,
   ("Bob   45   Done").data]

/-- The scenario, loaded. -/
def c1load : Except Str (Schema × List Row × List Str) :=
  load_infile c1lines

/-- The schema produced for the scenario. -/
def c1cols : Schema :=
  match c1load with
  | Except.ok t => t.1
  | Except.error _ => []

/-- The rows produced for the scenario. -/
def c1rows : List Row :=
  match c1load with
  | Except.ok t => t.2.1
  | Except.error _ => []

/-- The stored body lines of the scenario. -/
def c1body : List Str :=
  match c1load with
  | Except.ok t => t.2.2
  | Except.error _ => []

/-! ### Auxiliary predicates used by the theorems -/

/-- Every cell of every row fits inside the width of its selected
column.  This is the invariant the two loaders establish: fixed-width
cells are slices of length at most `stop - start`, CSV widths are
`max cell length + 2`. -/
def cellsFit (cols : Schema) (sel : List Str) (rows : List Row) : Bool :=
  rows.all (fun row => sel.all (fun c =>
    match colLookup cols c with
    | none => true
    | some v =>
      match row.get? v.1 with
      | none => true
      | some cell => cell.length ≤ v.2.2 - v.2.1))

/-- Shape of `numeric.split(s)`: an alternating list of digit-free runs
and nonempty digit runs, starting and ending with a (possibly empty)
digit-free run. -/
inductive SShape : List Str → Prop where
  | single (t : Str) (ht : ∀ c ∈ t, c.isDigit = false) : SShape [t]
  | cons (t d : Str) (rest : List Str) (ht : ∀ c ∈ t, c.isDigit = false)
      (hd : d ≠ []) (hda : ∀ c ∈ d, c.isDigit = true) (hr : SShape rest) :
      SShape (t :: d :: rest)

/-- Alternation of converted tokens: in a `true` position the head is a
string token, in a `false` position the list is empty or starts with a
numeric token. -/
inductive AltTok : Bool → List Tok → Prop where
  | nil : AltTok false []
  | scons (s : Str) (l : List Tok) (h : AltTok false l) :
      AltTok true (Tok.strT s :: l)
  | ncons (n : Nat) (l : List Tok) (h : AltTok true l) :
      AltTok false (Tok.numT n :: l)

/-! ## Lemmas: natural comparator -/

theorem splitGo_shape (l : List Char) :
    (∀ acc, (∀ c ∈ acc, c.isDigit = false) → SShape (splitGo l false acc)) ∧
    (∀ acc, acc ≠ [] → (∀ c ∈ acc, c.isDigit = true) →
      ∃ d rest, splitGo l true acc = d :: rest ∧ d ≠ [] ∧
        (∀ c ∈ d, c.isDigit = true) ∧ SShape rest) := by
  induction l with
  | nil =>
    refine ⟨fun acc hacc => ?_, fun acc hne hd => ?_⟩
    · exact SShape.single _ (fun c hc => hacc c (List.mem_reverse.mp hc))
    · refine ⟨acc.reverse, [[]], rfl, by simpa using hne,
        fun c hc => hd c (List.mem_reverse.mp hc), SShape.single _ ?_⟩
      intro c hc
      simp at hc
  | cons c rest ih =>
    refine ⟨fun acc hacc => ?_, fun acc hne hd => ?_⟩
    · show SShape (splitGo (c :: rest) false acc)
      by_cases hc : c.isDigit = true
      · obtain ⟨d, r, heq, hdne, hdall, hr⟩ := ih.2 [c] (by simp)
          (by intro x hx; simp at hx; simpa [hx] using hc)
        simp only [splitGo, if_pos hc, heq]
        exact SShape.cons _ _ _ (fun x hx => hacc x (List.mem_reverse.mp hx))
          hdne hdall hr
      · simp only [splitGo, if_neg hc]
        refine ih.1 (c :: acc) ?_
        intro x hx
        rcases List.mem_cons.mp hx with h | h
        · simpa [h] using (Bool.eq_false_iff.mpr hc)
        · exact hacc x h
    · show ∃ d r, splitGo (c :: rest) true acc = d :: r ∧ d ≠ [] ∧
        (∀ x ∈ d, x.isDigit = true) ∧ SShape r
      by_cases hc : c.isDigit = true
      · simp only [splitGo, if_pos hc]
        refine ih.2 (c :: acc) (by simp) ?_
        intro x hx
        rcases List.mem_cons.mp hx with h | h
        · simpa [h] using hc
        · exact hd x h
      · simp only [splitGo, if_neg hc]
        refine ⟨acc.reverse, splitGo rest false [c], rfl, by simpa using hne,
          fun x hx => hd x (List.mem_reverse.mp hx), ?_⟩
        refine ih.1 [c] ?_
        intro x hx
        simp at hx
        simpa [hx] using (Bool.eq_false_iff.mpr hc)

theorem numSplit_shape (s : Str) : SShape (numSplit s) :=
  (splitGo_shape s).1 [] (by intro c hc; simp at hc)

theorem mapOpt_total (f : α → Option β) :
    ∀ (l : List α), (∀ x ∈ l, (f x).isSome = true) →
      ∃ out, mapOpt f l = some out := by
  intro l
  induction l with
  | nil => exact fun _ => ⟨[], rfl⟩
  | cons a as ih =>
    intro h
    obtain ⟨out, hout⟩ := ih (fun x hx => h x (List.mem_cons_of_mem a hx))
    have ha := h a (by simp)
    cases hfa : f a with
    | none => rw [hfa] at ha; simp at ha
    | some b => exact ⟨b :: out, by simp [mapOpt, hfa, hout]⟩

theorem charDecimalVal_of_ascii (c : Char) (h : c.isDigit = true) :
    charDecimalVal c = some (c.toNat - 48) := by
  unfold charDecimalVal
  rw [if_pos h]

theorem charIsDigitPy_of_ascii (c : Char) (h : c.isDigit = true) :
    charIsDigitPy c = true := by
  unfold charIsDigitPy
  rw [charDecimalVal_of_ascii c h]
  rfl

theorem toTok_of_nodigit (t : Str) (h : ∀ c ∈ t, charIsDigitPy c = false) :
    toTok t = some (Tok.strT t) := by
  unfold toTok pyIsDigit
  cases t with
  | nil => simp
  | cons a as =>
    have ha := h a (by simp)
    simp [ha]

theorem toTok_of_digits (d : Str) (hne : d ≠ []) (h : ∀ c ∈ d, c.isDigit = true) :
    ∃ n, toTok d = some (Tok.numT n) := by
  have hde : d.isEmpty = false := by
    cases d with
    | nil => exact absurd rfl hne
    | cons a as => rfl
  have hpy : pyIsDigit d = true := by
    unfold pyIsDigit
    rw [hde]
    exact List.all_eq_true.mpr (fun c hc => charIsDigitPy_of_ascii c (h c hc))
  obtain ⟨ds, hds⟩ := mapOpt_total charDecimalVal d (fun c hc => by
    rw [charDecimalVal_of_ascii c (h c hc)]; rfl)
  refine ⟨ds.foldl (fun n v => 10 * n + v) 0, ?_⟩
  unfold toTok pyInt
  rw [hpy, if_pos rfl, hds]
  dsimp only
  rw [hde]
  simp

theorem sshape_toToks (l : List Str) (h : SShape l)
    (hcons : ∀ t ∈ l, ∀ c ∈ t, charIsDigitPy c = c.isDigit) :
    ∃ tl, mapOpt toTok l = some tl ∧ AltTok true tl := by
  induction h with
  | single t ht =>
    have hst : toTok t = some (Tok.strT t) := toTok_of_nodigit t (fun c hc => by
      rw [hcons t (by simp) c hc, ht c hc])
    exact ⟨[Tok.strT t], by simp [mapOpt, hst], AltTok.scons t [] AltTok.nil⟩
  | cons t d rest ht hd hda hr ih =>
    have h1 : toTok t = some (Tok.strT t) := toTok_of_nodigit t (fun c hc => by
      rw [hcons t (by simp) c hc, ht c hc])
    obtain ⟨n, h2⟩ := toTok_of_digits d hd hda
    obtain ⟨tl, h3, h4⟩ := ih (fun x hx c hc =>
      hcons x (List.mem_cons_of_mem t (List.mem_cons_of_mem d hx)) c hc)
    exact ⟨Tok.strT t :: Tok.numT n :: tl, by simp [mapOpt, h1, h2, h3],
      AltTok.scons _ _ (AltTok.ncons _ _ h4)⟩

theorem splitGo_chars :
    ∀ (l : List Char) (mode : Bool) (acc : List Char) (t : Str),
      t ∈ splitGo l mode acc → ∀ c ∈ t, c ∈ l ∨ c ∈ acc := by
  intro l
  induction l with
  | nil =>
    intro mode acc t ht c hc
    cases mode with
    | false =>
      simp only [splitGo, List.mem_singleton] at ht
      subst ht
      exact Or.inr (List.mem_reverse.mp hc)
    | true =>
      simp only [splitGo, List.mem_cons, List.not_mem_nil, or_false] at ht
      rcases ht with ht | ht
      · subst ht
        exact Or.inr (List.mem_reverse.mp hc)
      · subst ht
        simp at hc
  | cons x rest ih =>
    intro mode acc t ht c hc
    cases mode with
    | false =>
      simp only [splitGo] at ht
      by_cases hx : x.isDigit = true
      · rw [if_pos hx] at ht
        rcases List.mem_cons.mp ht with h | h
        · subst h
          exact Or.inr (List.mem_reverse.mp hc)
        · rcases ih true [x] t h c hc with h' | h'
          · exact Or.inl (List.mem_cons_of_mem x h')
          · simp only [List.mem_singleton] at h'
            subst h'
            exact Or.inl (by simp)
      · rw [if_neg hx] at ht
        rcases ih false (x :: acc) t ht c hc with h' | h'
        · exact Or.inl (List.mem_cons_of_mem x h')
        · rcases List.mem_cons.mp h' with h'' | h''
          · subst h''
            exact Or.inl (by simp)
          · exact Or.inr h''
    | true =>
      simp only [splitGo] at ht
      by_cases hx : x.isDigit = true
      · rw [if_pos hx] at ht
        rcases ih true (x :: acc) t ht c hc with h' | h'
        · exact Or.inl (List.mem_cons_of_mem x h')
        · rcases List.mem_cons.mp h' with h'' | h''
          · subst h''
            exact Or.inl (by simp)
          · exact Or.inr h''
      · rw [if_neg hx] at ht
        rcases List.mem_cons.mp ht with h | h
        · subst h
          exact Or.inr (List.mem_reverse.mp hc)
        · rcases ih false [x] t h c hc with h' | h'
          · exact Or.inl (List.mem_cons_of_mem x h')
          · simp only [List.mem_singleton] at h'
            subst h'
            exact Or.inl (by simp)

theorem numSplit_chars (s : Str) (t : Str) (ht : t ∈ numSplit s) :
    ∀ c ∈ t, c ∈ s := by
  intro c hc
  rcases splitGo_chars s false [] t ht c hc with h | h
  · exact h
  · simp at h

theorem alt_lexTok_isSome : ∀ {b : Bool} {l1 : List Tok}, AltTok b l1 →
    ∀ {l2 : List Tok}, AltTok b l2 → (lexTok l1 l2).isSome = true := by
  intro b l1 h1
  induction h1 with
  | nil =>
    intro l2 h2
    cases h2 with
    | nil => simp [lexTok]
    | ncons n l h => simp [lexTok]
  | scons s l h ih =>
    intro l2 h2
    cases h2 with
    | scons s2 l2 h2 =>
      simp only [lexTok, tokCmp]
      cases hso : strOrd s s2 <;> simp [ih h2]
  | ncons n l h ih =>
    intro l2 h2
    cases h2 with
    | nil => simp [lexTok]
    | ncons n2 l2 h2 =>
      simp only [lexTok, tokCmp]
      cases hno : natOrd n n2 <;> simp [ih h2]

/-- C9 (corrected): for every pair of strings whose characters'
`isdigit()` status agrees with the ASCII `[0-9]` class of the
tokenizer (in particular all ASCII strings), `compare` terminates
without error and returns a value in {-1, 0, 1} — the element-wise
list comparison never reaches an `int`-vs-`str` position, because both
numeric-split token sequences then alternate literal and digit runs
identically; moreover `compare "item2" "item10" = -1`,
`compare "item10" "item10" = 0` and `compare "a" "b" = -1`.  (For
strings holding non-ASCII Unicode digit characters `compare` can
raise — see the counterexample.) -/
theorem c9_compare_total_on_consistent :
    (∀ a b : Str, digitConsistent a = true → digitConsistent b = true →
      ∃ r : Int, compare a b = some r ∧ (r = -1 ∨ r = 0 ∨ r = 1)) ∧
    compare (("item2").data) (("item10").data) = some (-1) ∧
    compare (("item10").data) (("item10").data) = some 0 ∧
    compare (("a").data) (("b").data) = some (-1) := by
  refine ⟨?_, rfl, rfl, rfl⟩
  intro a b hca hcb
  have hconsa : ∀ t ∈ numSplit a, ∀ c ∈ t, charIsDigitPy c = c.isDigit := by
    intro t ht c hc
    have hm := numSplit_chars a t ht c hc
    have h2 := List.all_eq_true.mp hca c hm
    simpa using h2
  have hconsb : ∀ t ∈ numSplit b, ∀ c ∈ t, charIsDigitPy c = c.isDigit := by
    intro t ht c hc
    have hm := numSplit_chars b t ht c hc
    have h2 := List.all_eq_true.mp hcb c hm
    simpa using h2
  obtain ⟨tl1, h1, ha⟩ := sshape_toToks _ (numSplit_shape a) hconsa
  obtain ⟨tl2, h2, hb⟩ := sshape_toToks _ (numSplit_shape b) hconsb
  have h := alt_lexTok_isSome ha hb
  unfold compare
  rw [h1, h2]
  dsimp only
  cases ho : lexTok tl1 tl2 with
  | none => rw [ho] at h; simp at h
  | some o =>
    cases o with
    | lt => exact ⟨-1, rfl, Or.inl rfl⟩
    | eq => exact ⟨0, rfl, Or.inr (Or.inl rfl)⟩
    | gt => exact ⟨1, rfl, Or.inr (Or.inr rfl)⟩

/-- Counterexample to C9 as stated: `compare` is not total over all
strings.  Python's `isdigit()` accepts Unicode digits that the
`[0-9]` tokenizer never isolates, so the alternation breaks:
`compare("٥", "a")` converts to `[5]` vs `["a"]` and raises
`TypeError`, and `compare("²", "²")` raises `ValueError` because
`"²".isdigit()` is true while `int("²")` fails. -/
theorem c9_unicode_digit_errors :
    compare (("٥").data) (("a").data) = none ∧
    compare (("²").data) (("²").data) = none := by
  constructor
  · rfl
  · rfl

/-- Witness for C9 at a concrete digit-consistent pair. -/
theorem c9_compare_witness :
    ∃ r : Int, compare (("x1y").data) (("x2y").data) = some r ∧
      (r = -1 ∨ r = 0 ∨ r = 1) :=
  c9_compare_total_on_consistent.1 (("x1y").data) (("x2y").data)
    (by decide) (by decide)

/-! ## Lemmas: filter engine -/

theorem rowMatches_append (cols : Schema) (lines : List Str) (i : Nat)
    (row : Row) (P Q : List Where) :
    rowMatches cols lines i row (P ++ Q) =
      match rowMatches cols lines i row P, rowMatches cols lines i row Q with
      | some a, some b => some (a && b)
      | _, _ => none := by
  induction P with
  | nil =>
    cases hq : rowMatches cols lines i row Q <;>
      simp [rowMatches, hq]
  | cons w P ih =>
    simp only [List.cons_append, rowMatches, List.append_eq]
    rw [ih]
    cases hw : matchesWhere cols lines i row w <;>
      cases hp : rowMatches cols lines i row P <;>
        cases hq : rowMatches cols lines i row Q <;>
          simp [Bool.and_assoc]

theorem filterAux_nil_wheres (cols : Schema) (lines : List Str) :
    ∀ (rows : List Row) (i : Nat), filterAux cols lines [] i rows = some rows := by
  intro rows
  induction rows with
  | nil => intro i; rfl
  | cons r rs ih =>
    intro i
    simp [filterAux, rowMatches, ih (i + 1)]

theorem filterAux_append_sublist (cols : Schema) (lines : List Str)
    (P : List Where) (p : Where) :
    ∀ (rows : List Row) (i : Nat) (out2 out1 : List Row),
      filterAux cols lines (P ++ [p]) i rows = some out2 →
      filterAux cols lines P i rows = some out1 →
      out2.Sublist out1 := by
  intro rows
  induction rows with
  | nil =>
    intro i out2 out1 h2 h1
    simp only [filterAux] at h2 h1
    injection h2 with h2
    injection h1 with h1
    subst h2; subst h1
    exact List.Sublist.refl []
  | cons r rs ih =>
    intro i out2 out1 h2 h1
    simp only [filterAux] at h2 h1
    cases hm2 : rowMatches cols lines i r (P ++ [p]) with
    | none => rw [hm2] at h2; simp at h2
    | some b2 =>
      cases hr2 : filterAux cols lines (P ++ [p]) (i + 1) rs with
      | none => rw [hm2, hr2] at h2; simp at h2
      | some rest2 =>
        rw [hm2, hr2] at h2
        cases hm1 : rowMatches cols lines i r P with
        | none => rw [hm1] at h1; simp at h1
        | some b1 =>
          cases hr1 : filterAux cols lines P (i + 1) rs with
          | none => rw [hm1, hr1] at h1; simp at h1
          | some rest1 =>
            rw [hm1, hr1] at h1
            injection h2 with h2
            injection h1 with h1
            subst h2; subst h1
            have hsub := ih (i + 1) rest2 rest1 hr2 hr1
            rw [rowMatches_append, hm1] at hm2
            cases hq : rowMatches cols lines i r [p] with
            | none => rw [hq] at hm2; simp at hm2
            | some bp =>
              rw [hq] at hm2
              injection hm2 with hm2
              subst hm2
              cases b1 with
              | false => simpa using hsub
              | true =>
                cases bp with
                | false => simpa using List.Sublist.cons r hsub
                | true => simpa using List.Sublist.cons₂ r hsub

/-- C10 (confirmed): filtering with the empty predicate list returns
all rows unchanged, and appending one more predicate can only shrink
the filtered row set (it is a sublist, hence a subset, of the previous
one): evaluation is a conjunction. -/
theorem c10_filter_conjunction :
    (∀ (cols : Schema) (lines : List Str) (rows : List Row),
      filter cols lines [] rows = some rows) ∧
    (∀ (cols : Schema) (lines : List Str) (rows : List Row)
      (P : List Where) (p : Where) (out2 out1 : List Row),
      filter cols lines (P ++ [p]) rows = some out2 →
      filter cols lines P rows = some out1 →
      out2.Sublist out1) := by
  constructor
  · intro cols lines rows
    exact filterAux_nil_wheres cols lines rows 0
  · intro cols lines rows P p out2 out1 h2 h1
    exact filterAux_append_sublist cols lines P p rows 0 out2 out1 h2 h1

/-- Witness for C10: a concrete instantiation of the sublist half. -/
theorem c10_conjunction_witness :
    List.Sublist [[("a").data]] [[("a").data], [("b").data]] :=
  c10_filter_conjunction.2 [(("C").data, (0, 0, 3))]
    [("a").data, ("b").data] [[("a").data], [("b").data]]
    [] (some (("C").data), ("=").data, ("a").data)
    [[("a").data]] [[("a").data], [("b").data]] (by rfl) (by rfl)

/-! ## Lemmas: the default string order used by `list.sort()` -/

theorem strLtB_iff_lex : ∀ a b : Str, strLtB a b = true ↔ List.Lex (· < ·) a b := by
  intro a
  induction a with
  | nil =>
    intro b
    cases b with
    | nil => simp [strLtB, List.Lex.not_nil_right]
    | cons b bs => simp [strLtB, List.Lex.nil]
  | cons a as ih =>
    intro b
    cases b with
    | nil => simp [strLtB, List.Lex.not_nil_right]
    | cons b bs =>
      simp only [strLtB]
      rcases lt_trichotomy a b with hab | hab | hab
      · simp only [if_pos hab, true_iff]
        exact List.Lex.rel hab
      · subst hab
        rw [if_neg (lt_irrefl a), if_neg (lt_irrefl a), List.Lex.cons_iff]
        exact ih bs
      · rw [if_neg (not_lt_of_gt hab), if_pos hab]
        constructor
        · intro h; exact absurd h (by simp)
        · intro h
          cases h with
          | rel h' => exact absurd h' (not_lt_of_gt hab)
          | cons h' => exact absurd rfl (ne_of_gt hab)

instance lexIrrefl : IsIrrefl Str (List.Lex (· < ·)) := by infer_instance

instance lexTrans : IsTrans Str (List.Lex (· < ·)) := by infer_instance

instance lexTrichotomous : IsTrichotomous Str (List.Lex (· < ·)) := by infer_instance

theorem strLtB_false_of_lex : ∀ {a b : Str}, List.Lex (· < ·) a b →
    strLtB b a = false := by
  intro a b h
  rw [Bool.eq_false_iff]
  intro hba
  have h2 := (strLtB_iff_lex b a).mp hba
  have h3 : List.Lex (· < ·) a a := lexTrans.trans _ _ _ h h2
  exact (lexIrrefl.irrefl a) h3

theorem strLtB_self_false (a : Str) : strLtB a a = false := by
  rw [Bool.eq_false_iff]
  intro haa
  exact (lexIrrefl.irrefl a) ((strLtB_iff_lex a a).mp haa)

theorem strLe_or (a b : Str) : strLe a b ∨ strLe b a := by
  unfold strLe strLeB
  rcases lexTrichotomous.trichotomous a b with h | h | h
  · left; simp [strLtB_false_of_lex h]
  · subst h
    left; simp [strLtB_self_false]
  · right; simp [strLtB_false_of_lex h]

theorem strLe_trans_thm (a b c : Str) (h1 : strLe a b) (h2 : strLe b c) :
    strLe a c := by
  unfold strLe strLeB at h1 h2 ⊢
  have h1' : strLtB b a = false := by
    cases hv : strLtB b a
    · rfl
    · rw [hv] at h1; cases h1
  have h2' : strLtB c b = false := by
    cases hv : strLtB c b
    · rfl
    · rw [hv] at h2; cases h2
  suffices hgoal : strLtB c a = false by rw [hgoal]; rfl
  rw [Bool.eq_false_iff]
  intro hca
  have hca' := (strLtB_iff_lex c a).mp hca
  rcases lexTrichotomous.trichotomous a b with hab | hab | hab
  · have hcb : List.Lex (· < ·) c b := lexTrans.trans _ _ _ hca' hab
    rw [(strLtB_iff_lex c b).mpr hcb] at h2'
    cases h2'
  · subst hab
    rw [hca] at h2'
    cases h2'
  · rw [(strLtB_iff_lex b a).mpr hab] at h1'
    cases h1'

instance : IsTotal Str strLe := ⟨strLe_or⟩

instance : IsTrans Str strLe := ⟨strLe_trans_thm⟩

/-! ## Lemmas: distinct values -/

theorem mem_mapOpt (f : α → Option β) :
    ∀ (l : List α) (out : List β), mapOpt f l = some out →
      ∀ v, v ∈ out ↔ ∃ a ∈ l, f a = some v := by
  intro l
  induction l with
  | nil =>
    intro out h v
    injection h with h
    subst h
    simp
  | cons a as ih =>
    intro out h v
    simp only [mapOpt] at h
    cases hf : f a with
    | none => rw [hf] at h; simp at h
    | some b =>
      cases hr : mapOpt f as with
      | none => rw [hf, hr] at h; simp at h
      | some bs =>
        rw [hf, hr] at h
        injection h with h
        subst h
        constructor
        · intro hv
          rcases List.mem_cons.mp hv with h | h
          · exact ⟨a, by simp, by rw [hf, h]⟩
          · obtain ⟨x, hx, hxv⟩ := ((ih bs hr v).mp h)
            exact ⟨x, List.mem_cons_of_mem a hx, hxv⟩
        · rintro ⟨x, hx, hxv⟩
          rcases List.mem_cons.mp hx with h | h
          · subst h
            rw [hf] at hxv
            injection hxv with hxv
            simp [hxv]
          · exact List.mem_cons_of_mem b (((ih bs hr v).mpr ⟨x, h, hxv⟩))

/-- C2 (corrected): the distinct-values listing of any column of any
loaded table contains each cell value exactly once (no duplicates) and
is sorted ascending — but by Python's default string order
(lexicographic by code point, `strLe`), not by the natural
comparator. -/
theorem c2_distinct_sorted_lexicographic (cols : Schema) (rows : List Row)
    (col : Str) (idx s e : Nat) (out : List Str)
    (hcol : colLookup cols col = some (idx, s, e))
    (h : distinct_values cols rows col = some out) :
    out.Nodup ∧ List.Sorted strLe out ∧
      (∀ v, v ∈ out ↔ ∃ r ∈ rows, r.get? idx = some v) := by
  unfold distinct_values at h
  rw [hcol] at h
  dsimp only at h
  cases hm : mapOpt (fun r => r.get? idx) rows with
  | none => rw [hm] at h; simp at h
  | some vals =>
    rw [hm] at h
    injection h with h
    subst h
    refine ⟨?_, ?_, ?_⟩
    · exact ((List.perm_insertionSort strLe vals.dedup).nodup_iff).mpr
        (List.nodup_dedup vals)
    · exact List.sorted_insertionSort strLe vals.dedup
    · intro v
      rw [(List.perm_insertionSort strLe vals.dedup).mem_iff, List.mem_dedup]
      exact mem_mapOpt (fun r => r.get? idx) rows vals hm v

/-- Counterexample to C2 as stated: for a column holding "item2" and
"item10", the code returns ["item10", "item2"] (plain string sort),
although the natural comparator orders "item2" strictly before
"item10", so the list is not sorted ascending by the natural
comparator. -/
theorem c2_natural_order_false :
    distinct_values [(("C").data, (0, 0, 5))]
        [[("item2").data], [("item10").data]] (("C").data) =
      some [("item10").data, ("item2").data] ∧
    compare (("item2").data) (("item10").data) = some (-1) := by
  constructor
  · rfl
  · rfl

/-- Witness for C2 at a concrete table. -/
theorem c2_sorted_witness : ([("item10").data, ("item2").data] : List Str).Nodup :=
  (c2_distinct_sorted_lexicographic [(("C").data, (0, 0, 5))]
    [[("item2").data], [("item10").data]] (("C").data) 0 0 5
    [("item10").data, ("item2").data] (by rfl) (by rfl)).1

/-! ## Lemmas: viewport renderer -/

theorem mem_of_mem_enumFrom {α : Type} :
    ∀ (l : List α) (n : Nat) (p : Nat × α), p ∈ l.enumFrom n → p.2 ∈ l := by
  intro l
  induction l with
  | nil => intro n p h; simp [List.enumFrom] at h
  | cons a as ih =>
    intro n p h
    simp only [List.enumFrom] at h
    rcases List.mem_cons.mp h with h | h
    · subst h; simp
    · exact List.mem_cons_of_mem a (ih (n + 1) p h)

theorem padTo_length (s : Str) (w : Nat) (h : s.length ≤ w) :
    (padTo s w).length = w := by
  simp [padTo]
  omega

theorem rowLineGo_length (cols : Schema) (row : Row) (cmax : Nat) :
    ∀ (cs : List Str) (ci : Nat) (line : Str), ci ≤ cmax →
      (∀ c ∈ cs, ∀ v : Col, colLookup cols c = some v →
        ∀ cell, row.get? v.1 = some cell → cell.length ≤ v.2.2 - v.2.1) →
      rowLineGo cols row cmax cs ci = some line →
      ci + line.length ≤ cmax := by
  intro cs
  induction cs with
  | nil =>
    intro ci line hci hfit h
    injection h with h
    subst h
    simpa using hci
  | cons c cs ih =>
    intro ci line hci hfit h
    simp only [rowLineGo] at h
    cases hl : colLookup cols c with
    | none => rw [hl] at h; simp at h
    | some v =>
      rw [hl] at h
      dsimp only at h
      by_cases hw : ci + (v.2.2 - v.2.1) < cmax
      · rw [if_pos hw] at h
        cases hc : row.get? v.1 with
        | none => rw [hc] at h; simp at h
        | some cell =>
          cases hr : rowLineGo cols row cmax cs (ci + (v.2.2 - v.2.1)) with
          | none => rw [hc, hr] at h; simp at h
          | some rest =>
            rw [hc, hr] at h
            injection h with h
            subst h
            have hcell := hfit c (by simp) v hl cell hc
            have hrec := ih (ci + (v.2.2 - v.2.1)) rest (le_of_lt hw)
              (fun x hx => hfit x (List.mem_cons_of_mem c hx)) hr
            rw [List.length_append, padTo_length cell _ hcell]
            omega
      · rw [if_neg hw] at h
        exact ih ci line hci (fun x hx => hfit x (List.mem_cons_of_mem c hx)) h

/-- C3 (corrected): whenever the cells fit their declared column widths
(which holds for loaded tables) and rendering starts at column 0, every
DATA line the renderer emits has width at most `cmax`; over-budget
columns are omitted.  (The header line, by contrast, is written with no
budget check — see the counterexample.) -/
theorem c3_data_lines_within_budget (cols : Schema) (sel : List Str)
    (filtered : List Row) (rmin rmax : Int) (cmax : Nat) (out : List Str)
    (h : table cols sel filtered rmin rmax 0 cmax = some out)
    (hfit : cellsFit cols sel filtered = true) :
    ∀ line ∈ out.tail, line.length ≤ cmax := by
  intro line hline
  unfold table at h
  cases hh : headerLine cols sel with
  | none => rw [hh] at h; simp at h
  | some hd =>
    rw [hh] at h
    dsimp only at h
    cases hb : mapOpt
        (fun r => rowLine cols r 0 cmax sel)
        ((List.filter
          (fun p => decide (min (max 0 rmin) ((filtered.length : Int) + 1) ≤ (p.1 : Int)) &&
            decide ((p.1 : Int) < min rmax ((filtered.length : Int) + 1)))
          filtered.enum).map (fun p => p.2)) with
    | none => rw [hb] at h; simp at h
    | some body =>
      rw [hb] at h
      injection h with h
      subst h
      simp only [List.tail_cons] at hline
      obtain ⟨r, hr, hrl⟩ := (mem_mapOpt _ _ body hb line).mp hline
      have hrf : r ∈ filtered := by
        obtain ⟨p, hp, hp2⟩ := List.mem_map.mp hr
        have hpe := List.mem_filter.mp hp
        have := mem_of_mem_enumFrom filtered 0 p hpe.1
        rwa [hp2] at this
      have hfit' : ∀ c ∈ sel, ∀ v : Col, colLookup cols c = some v →
          ∀ cell, r.get? v.1 = some cell → cell.length ≤ v.2.2 - v.2.1 := by
        intro c hc v hv cell hcell
        have h1 := List.all_eq_true.mp hfit r hrf
        have h2 := List.all_eq_true.mp h1 c hc
        simp only [hv, hcell] at h2
        simpa using h2
      have := rowLineGo_length cols r cmax sel 0 line (Nat.zero_le cmax) hfit' hrl
      omega

/-- Counterexample to C3 as stated: with columns A and B of width 5 and
budget 6, the header line is 10 characters long — the header loop has
no `cmax` check, so an emitted line exceeds the column budget. -/
theorem c3_header_exceeds_budget :
    table [(("A").data, (0, 0, 5)), (("B").data, (1, 5, 10))]
        [("A").data, ("B").data] [[("x").data, ("y").data]] 0 10 0 6 =
      some [("A    B    ").data, ("x    ").data] ∧
    ¬ ((("A    B    ").data : Str).length ≤ 6) := by
  constructor
  · rfl
  · decide

/-- Witness for C3 at a concrete rendering. -/
theorem c3_budget_witness : ((("x    ").data : Str)).length ≤ 6 :=
  c3_data_lines_within_budget
    [(("A").data, (0, 0, 5)), (("B").data, (1, 5, 10))]
    [("A").data, ("B").data] [[("x").data, ("y").data]] 0 10 6
    [("A    B    ").data, ("x    ").data] (by rfl) (by rfl)
    (("x    ").data) (by simp)

/-! ## The fixed-width scenario (C1) -/

/-- C1 (corrected): loading the scenario header
"NAME  AGE  STATUS" with rows "Alice 30   Pending" and
"Bob   45   Done" yields exactly three schema columns with spans
NAME = [0,6), AGE = [6,11) and STATUS = [11,20) (the last stop is the
longest body line, 18, plus 2); the AGE cells trim to "30" and "45";
and filtering with STATUS = "Pending" yields exactly the Alice row. -/
theorem c1_scenario_parse_filter :
    c1load = Except.ok
      ([(("NAME").data, (0, 0, 6)), (("AGE").data, (1, 6, 11)),
        (("STATUS").data, (2, 11, 20))],
       [[("Alice").data, ("30").data, ("Pending").data],
        [("Bob").data, ("45").data, ("Done").data]],
       [("Alice 30   Pending").data, ("Bob   45   Done").data]) ∧
    filter c1cols c1body
        [(some (("STATUS").data), ("=").data, ("Pending").data)] c1rows =
      some [[("Alice").data, ("30").data, ("Pending").data]] := by
  constructor
  · rfl
  · rfl

/-- Counterexample to C1 as stated: the claimed span NAME = [0,5) is
wrong — the parser puts NAME's stop at 6 (the index at which "AGE" is
found), not 5. -/
theorem c1_claimed_spans_false :
    colLookup c1cols (("NAME").data) = some (0, 0, 6) ∧
    colLookup c1cols (("NAME").data) ≠ some (0, 0, 5) := by
  constructor
  · rfl
  · decide

/-! ## Parse-failure behaviour (C4, C5) -/

/-- C4 (code_bug): a duplicate CSV header is NOT detected.  Because of
the swapped receiver in `",".split(headerline)`, the duplicate check in
CSV mode inspects the tokens of splitting the one-character string ","
(always duplicate-free), so `load_infile` on the duplicate CSV header
"X,X" succeeds, silently collapsing the two X columns into one holding
the second value. -/
theorem c4_csv_duplicate_header_accepted :
    load_infile [("X,X").data, ("1,2").data] =
      Except.ok ([(("X").data, (0, 0, 3))], [[("2").data]], []) := by
  rfl

/-- C5 (code_bug): for a CSV-loaded table, the stored `self.lines` is
the empty list (`load_csv` never assigns it), so evaluating a free-text
substring predicate dereferences `self.lines[i]` out of range and
raises `IndexError` instead of testing the source line. -/
theorem c5_csv_substring_faults :
    load_infile [("a,b").data, ("1,2").data] =
      Except.ok ([(("a").data, (0, 0, 3)), (("b").data, (1, 0, 3))],
        [[("1").data, ("2").data]], []) ∧
    filter [(("a").data, (0, 0, 3)), (("b").data, (1, 0, 3))] []
        [(none, [], ("1").data)] [[("1").data, ("2").data]] = none := by
  constructor
  · rfl
  · rfl

/-! ## Interactive controller (C6, C7, C8) -/

/-- C6 (corrected): pressing Enter with a value highlighted sets the
predicate list to exactly the single Compare predicate and recomputes
the filtered rows — the entire previous list, including any free-text
substring predicate inserted from the command line, is discarded, not
kept. -/
theorem c6_enter_commits_single (cols : Schema) (lines : List Str)
    (rows : List Row) (all_columns : List Str) (sc : Nat) (cmp : Str)
    (dvs : List Str) (sv : Nat) (wheres : List Where) (col val : Str)
    (fr : List Row)
    (h1 : all_columns.get? sc = some col) (h2 : dvs.get? sv = some val)
    (h3 : filter cols lines [(some col, cmp, val)] rows = some fr) :
    wherePromptEnter cols lines rows all_columns sc cmp dvs sv wheres =
      some ([(some col, cmp, val)], fr) := by
  unfold wherePromptEnter
  rw [h1, h2]
  dsimp only
  rw [h3]

/-- Counterexample to C6 as stated: starting from a predicate list that
holds the command-line free-text predicate "pat", committing
STATUS = "Pending" leaves a predicate list in which the free-text
predicate no longer occurs. -/
theorem c6_pattern_discarded :
    wherePromptEnter [(("STATUS").data, (0, 0, 5))] [("x").data]
        [[("Pending").data]] [("STATUS").data] 0 (("=").data)
        [("Pending").data] 0 [(none, [], ("pat").data)] =
      some ([(some (("STATUS").data), ("=").data, ("Pending").data)],
        [[("Pending").data]]) ∧
    (none, ([] : Str), ("pat").data) ∉
      ([(some (("STATUS").data), ("=").data, ("Pending").data)] : List Where) := by
  constructor
  · rfl
  · decide

/-- Witness for C6 at a concrete state. -/
theorem c6_enter_witness :
    wherePromptEnter [(("STATUS").data, (0, 0, 5))] [("x").data]
        [[("Pending").data]] [("STATUS").data] 0 (("=").data)
        [("Pending").data] 0 [] =
      some ([(some (("STATUS").data), ("=").data, ("Pending").data)],
        [[("Pending").data]]) :=
  c6_enter_commits_single [(("STATUS").data, (0, 0, 5))] [("x").data]
    [[("Pending").data]] [("STATUS").data] 0 (("=").data)
    [("Pending").data] 0 [] (("STATUS").data) (("Pending").data)
    [[("Pending").data]] (by rfl) (by rfl) (by rfl)

/-- C7 (code_bug): in value-choosing mode with an empty distinct-value
list (a column with zero rows), the unconditional
`selected_val %= len(distinct_values)` divides by zero: the cursor step
faults (ZeroDivisionError) instead of keeping the cursor at 0. -/
theorem c7_empty_values_fault :
    wherePromptCursor 1 0 0 3 0 CursorKey.down = none := by
  rfl

/-- C8 (corrected): every scrolling transition except the end key `G`
keeps `row_offset` inside `[0, filtered_row_count]` (for a terminal of
height at least 3); the `G` transition is not clamped. -/
theorem c8_scroll_clamped (ri : Int) (n : Nat) (maxr : Int) (k : MoveKey)
    (h0 : 0 ≤ ri) (h1 : ri ≤ (n : Int)) (h3 : 3 ≤ maxr)
    (hk : k ≠ MoveKey.kG) :
    0 ≤ scrollStep ri n maxr k ∧ scrollStep ri n maxr k ≤ (n : Int) := by
  have hn : (0 : Int) ≤ (n : Int) := Int.natCast_nonneg n
  have hq : 0 ≤ Int.fdiv (maxr - 3) 2 := Int.fdiv_nonneg (by omega) (by omega)
  have hm : (0 : Int) ≤ maxr - 3 := by omega
  cases k with
  | kj => exact ⟨le_min (by omega) hn, min_le_right _ _⟩
  | kd => exact ⟨le_min (add_nonneg h0 hq) hn, min_le_right _ _⟩
  | kf => exact ⟨le_min (add_nonneg h0 hm) hn, min_le_right _ _⟩
  | kk => exact ⟨le_max_left _ _, max_le hn (by omega)⟩
  | ku => exact ⟨le_max_left _ _, max_le hn (le_trans (sub_le_self ri hq) h1)⟩
  | kb => exact ⟨le_max_left _ _, max_le hn (le_trans (sub_le_self ri hm) h1)⟩
  | kg => exact ⟨le_refl 0, hn⟩
  | kG => exact absurd rfl hk

/-- Counterexample to C8 as stated: from the valid state
`row_offset = 0` over an empty filtered set, the end key `G` on a
24-row terminal sets `row_offset` to -21, leaving `[0, 0]`. -/
theorem c8_end_key_unclamped :
    scrollStep 0 0 24 MoveKey.kG = -21 ∧
    ¬ (0 ≤ scrollStep 0 0 24 MoveKey.kG) := by
  constructor
  · decide
  · decide

/-- Witness for C8 at a concrete keystroke. -/
theorem c8_scroll_witness :
    0 ≤ scrollStep 2 5 10 MoveKey.kj ∧ scrollStep 2 5 10 MoveKey.kj ≤ (5 : Int) :=
  c8_scroll_clamped 2 5 10 MoveKey.kj (by decide) (by decide) (by decide)
    (by decide)

end Tsel
